import Mathlib

/-!
Verification of the kryptografpersister ingestion engine and HTTP handler
(`pkg/server/server.go`) against its specification.

The program is shallowly embedded:

* `Data` mirrors the Go struct `server.Data` (`Key string`,
  `Ciphertext []byte`); bytes are modelled as `List Nat`.
* The external AnyStore is an association list of `String × Data` with the
  operations the server calls: `HasKey`, `Store`, `Delete`.  (The real
  store holds `any` values; every value this program ever stores is a
  `Data`, so the typed store is faithful for all states reachable by this
  code.)
* Randomness and time are modelled by an oracle `gen : Nat → String`
  giving the successive outputs of `RandomStamp()`; store-write failures by
  an oracle `failAt : Nat → Option String` (the error, if any, of the w-th
  `Store` call of the transaction); rollback-delete results by an oracle
  `delErr : Nat → Option String` whose value the code discards, exactly as
  the Go code discards the return value of `s.Delete(k)`.
* The unbounded regenerate-while-key-exists loop is given fuel; exhausted
  fuel returns `none`, standing for the divergence the real loop would
  exhibit if every generated key collided.
* The JSON decode loop is modelled by a list of decode events: each
  `Except.ok kv` is one successfully decoded object (its key/value pairs in
  some order, Go map iteration order being unspecified), `Except.error e`
  is a decode failure, and the end of the list is `io.EOF`.
-/

namespace Persister

/-- One persisted record: caller-supplied logical key and opaque ciphertext
bytes, mirroring the Go struct `server.Data`. -/
structure Data where
  Key : String
  Ciphertext : List Nat
  deriving Repr, DecidableEq

/-- The external AnyStore, abstractly: an association list from surrogate id
to stored `Data`. -/
abbrev Store := List (String × Data)

namespace AnyStore

/-- `s.HasKey(key)`: does the store contain the key? -/
def HasKey (s : Store) (k : String) : Bool :=
  s.any (fun p => p.1 == k)

/-- `s.Store(key, value)`: set semantics of the underlying map — replace if
the key exists, append otherwise. -/
def StoreKV (s : Store) (k : String) (v : Data) : Store :=
  if HasKey s k then s.map (fun p => if p.1 == k then (k, v) else p)
  else s ++ [(k, v)]

/-- `s.Delete(key)`: remove the key from the store. -/
def Delete (s : Store) (k : String) : Store :=
  s.filter (fun p => !(p.1 == k))

/-- `s.Delete(key)` as called on the rollback path: the delete takes effect
on the map and the error result `e` is returned alongside; the caller
(`StoreJsonKV`) discards the second component, as the Go code discards the
return value of `s.Delete(k)`. -/
def DeleteE (s : Store) (k : String) (e : Option String) : Store × Option String :=
  (Delete s k, e)

end AnyStore

/-- One event of the JSON decode loop: a decoded object (list of key/value
pairs) or a decode error; the end of the event list is `io.EOF`. -/
abbrev DecodeEvent := Except String (List (String × List Nat))

/-- The decode phase of `StoreJsonKV` (lines 314–334): decode object by
object, flattening each object's entries into the `transaction` slice, in
order; stop at `io.EOF`; on any other error return it immediately. -/
def decodeStream : List DecodeEvent → Except String (List Data)
  | [] => .ok []
  | .error e :: _ => .error e
  | .ok kv :: rest =>
    match decodeStream rest with
    | .error e => .error e
    | .ok ds => .ok (kv.map (fun p => Data.mk p.1 p.2) ++ ds)

/-- The key generation loop (lines 340–347): `key := RandomStamp()`, then
while `s.HasKey(key)` regenerate.  `gen i` is the i-th output of
`RandomStamp()`; the result carries the next unused oracle index.  `fuel`
bounds the number of draws; `none` models the divergence of the real loop
when every draw collides. -/
def freshKey (gen : Nat → String) (s : Store) : Nat → Nat → Option (String × Nat)
  | _, 0 => none
  | i, fuel + 1 =>
    let k := gen i
    if AnyStore.HasKey s k then freshKey gen s (i + 1) fuel
    else some (k, i + 1)

/-- The rollback loop (lines 349–351): delete every key in `keysToRollBack`,
in order, discarding each delete's error result (`delErr j` is the result of
the j-th delete). -/
def rollback (delErr : Nat → Option String) : List String → Store → Nat → Store
  | [], s, _ => s
  | k :: ks, s, j => rollback delErr ks (AnyStore.DeleteE s k (delErr j)).1 (j + 1)

/-- The body of the `a.Run` transaction of `StoreJsonKV` (lines 337–356):
walk the decoded `transaction` in order; for each record draw a fresh
surrogate key, then attempt the store write (`failAt w` is the error, if
any, of the w-th write); on a write failure delete all earlier keys and
return the error; on success append the key to `keysToRollBack` and
continue.  Returns the final store and the transaction's error, or `none`
when the key loop's fuel ran out. -/
def runStore (gen : Nat → String) (failAt : Nat → Option String)
    (delErr : Nat → Option String) (fuel : Nat) :
    List Data → Store → List String → Nat → Nat → Option (Store × Option String)
  | [], s, _, _, _ => some (s, none)
  | d :: rest, s, rb, i, w =>
    match freshKey gen s i fuel with
    | none => none
    | some (k, i') =>
      match failAt w with
      | some e => some (rollback delErr rb s 0, some e)
      | none => runStore gen failAt delErr fuel rest (AnyStore.StoreKV s k d) (rb ++ [k]) i' (w + 1)

/-- `StoreJsonKV` (lines 313–362): decode the whole stream first; on a
decode error return it without touching the store; otherwise run the
transaction, returning the final store and either the committed `Data`
slice or the propagated error. -/
def StoreJsonKV (a : Store) (stream : List DecodeEvent) (gen : Nat → String)
    (failAt : Nat → Option String) (delErr : Nat → Option String) (fuel : Nat) :
    Option (Store × Except String (List Data)) :=
  match decodeStream stream with
  | .error e => some (a, .error e)
  | .ok transaction =>
    match runStore gen failAt delErr fuel transaction a [] 0 0 with
    | none => none
    | some (s', none) => some (s', .ok transaction)
    | some (s', some e) => some (s', .error e)

/-- A UTC wall-clock instant, the argument of Go's `time.Format`:
`nanos` is the sub-second part in nanoseconds. -/
structure GoTime where
  year : Nat
  month : Nat
  day : Nat
  hour : Nat
  minute : Nat
  second : Nat
  nanos : Nat
  deriving Repr, DecidableEq

/-- Decimal digits of `n`, most significant first, by repeated division;
`fuel`-bounded so that the definition is structural (any `fuel > log10 n`
gives the full digit list). -/
def decDigitsCore : Nat → Nat → List Char
  | 0, _ => []
  | fuel + 1, n =>
    if n < 10 then [Nat.digitChar n]
    else decDigitsCore fuel (n / 10) ++ [Nat.digitChar (n % 10)]

/-- Decimal digits of `n`, most significant first. -/
def decDigits (n : Nat) : List Char := decDigitsCore (n + 1) n

/-- `n` in decimal, left-padded with zeros to width at least `w`: the
semantics of the format verbs `%.Nd` and of Go layout fields such as `01`
or `2006` (no truncation when the number is wider). -/
def padNum (w : Nat) (n : Nat) : String :=
  let ds := decDigits n
  String.mk (List.replicate (w - ds.length) '0' ++ ds)

/-- Remove trailing zero characters. -/
def trimRightZeros (l : List Char) : List Char :=
  (l.reverse.dropWhile (· == '0')).reverse

/-- The fractional-second field of Go layout `.999999999`: nine digits of
nanoseconds with trailing zeros removed; the dot is omitted when the whole
fraction is zero. -/
def frac9 (nanos : Nat) : String :=
  let ds := trimRightZeros (padNum 9 nanos).data
  if ds.isEmpty then "" else "." ++ String.mk ds

/-- Go `t.Format("20060102T150405.999999999")` on a UTC time. -/
def goTimeFormat (t : GoTime) : String :=
  padNum 4 t.year ++ padNum 2 t.month ++ padNum 2 t.day ++ "T" ++
    padNum 2 t.hour ++ padNum 2 t.minute ++ padNum 2 t.second ++ frac9 t.nanos

/-- `RandomStamp` (lines 294–301): the formatted UTC time (the supplied
`tm[0]`, or `time.Now().UTC()` — either way a `GoTime` here) followed by
`fmt.Sprintf("_%.19d", crand.Int63())`, where `r` models the `Int63()`
draw, a uniformly random integer in `[0, 2^63)`. -/
def RandomStamp (t : GoTime) (r : Nat) : String :=
  goTimeFormat t ++ "_" ++ padNum 19 r

/-- JSON string escaping of one character as `encoding/json` performs it
(quote, backslash, the HTML-escaped `<`, `>`, `&`, and control characters). -/
def escapeChar (c : Char) : String :=
  if c = '"' then "\\\""
  else if c = '\\' then "\\\\"
  else if c = '\n' then "\\n"
  else if c = '\r' then "\\r"
  else if c = '\t' then "\\t"
  else if c = '<' then "\\u003c"
  else if c = '>' then "\\u003e"
  else if c = '&' then "\\u0026"
  else if c.toNat < 32 then
    "\\u00" ++ String.mk [Nat.digitChar (c.toNat / 16), Nat.digitChar (c.toNat % 16)]
  else String.mk [c]

/-- A JSON string literal for `s`: quotes around the escaped characters. -/
def jsonQuote (s : String) : String :=
  "\"" ++ String.join (s.data.map escapeChar) ++ "\""

/-- The standard base64 alphabet character at index `n`. -/
def b64Char (n : Nat) : Char :=
  "ABCDEFGHIJKLMNOPQRSTUVWXYZabcdefghijklmnopqrstuvwxyz0123456789+/".data.getD n '='

/-- Standard base64 encoding of a byte sequence, as `encoding/json` encodes
a `[]byte` value. -/
def base64Encode : List Nat → String
  | [] => ""
  | [a] =>
    String.mk [b64Char (a / 4 % 64), b64Char (a % 4 * 16 % 64)] ++ "=="
  | [a, b] =>
    String.mk [b64Char (a / 4 % 64), b64Char ((a % 4 * 16 + b / 16) % 64),
      b64Char (b % 16 * 4 % 64)] ++ "="
  | a :: b :: c :: rest =>
    String.mk [b64Char (a / 4 % 64), b64Char ((a % 4 * 16 + b / 16) % 64),
      b64Char ((b % 16 * 4 + c / 64) % 64), b64Char (c % 64)] ++ base64Encode rest

/-- UTF-8 encoding of one code point. -/
def utf8Char (n : Nat) : List Nat :=
  if n < 128 then [n]
  else if n < 2048 then [192 + n / 64, 128 + n % 64]
  else if n < 65536 then [224 + n / 4096, 128 + n / 64 % 64, 128 + n % 64]
  else [240 + n / 262144, 128 + n / 4096 % 64, 128 + n / 64 % 64, 128 + n % 64]

/-- The UTF-8 bytes of a string. -/
def utf8Bytes (s : String) : List Nat :=
  (s.data.map (fun c => utf8Char c.toNat)).foldr (· ++ ·) []

/-- `ToJson(&Msg\x7bMsg: m\x7d)` (lines 276–286): `json.MarshalIndent` of the
`Msg` struct with two-space indent. -/
def ToJsonMsg (m : String) : String :=
  "\x7b\n  \"message\": " ++ jsonQuote m ++ "\n\x7d"

/-- `ToJson` of the `map[string][]byte` error object of the GET handler
(lines 184–187): `json.MarshalIndent`, the `[]byte` value base64-encoded. -/
def ToJsonServerError (e : String) : String :=
  "\x7b\n  \"SERVER_ERROR\": \"" ++ base64Encode (utf8Bytes e) ++ "\"\n\x7d"

/-- `json.Marshal` of the one-entry `map[string][]byte` built for each
record in the GET handler (lines 169–171). -/
def marshalKV (k : String) (v : List Nat) : String :=
  "\x7b" ++ jsonQuote k ++ ":\"" ++ base64Encode v ++ "\"\x7d"

/-- The visible state of an `http.ResponseWriter`: the transport status
(committed by the first `WriteHeader` or first `Write`) and the sequence of
written body chunks. -/
structure RespWriter where
  status : Option Nat
  body : List String
  deriving Repr, DecidableEq

/-- A fresh response writer: no status committed, empty body. -/
def RespWriter.init : RespWriter := ⟨none, []⟩

/-- `w.WriteHeader(c)`: commits the status code; a second call is
superfluous and changes nothing (net/http semantics). -/
def RespWriter.writeHeader (w : RespWriter) (c : Nat) : RespWriter :=
  match w.status with
  | some _ => w
  | none => ⟨some c, w.body⟩

/-- `w.Write(s)`: commits status 200 if none was set, then appends the
chunk to the body. -/
def RespWriter.write (w : RespWriter) (s : String) : RespWriter :=
  ⟨some (w.status.getD 200), w.body ++ [s]⟩

/-- The log line of the PUT success path (lines 138–145): plural for more
than one pair, a dedicated message for zero, singular for exactly one. -/
def persistLog (n : Nat) : String :=
  if n > 1 then "persisted " ++ Nat.repr n ++ " key-value pairs"
  else if n = 0 then "no key-value pairs persisted"
  else "persisted " ++ Nat.repr n ++ " key-value pair"

/-- The `http.MethodPut` arm of the handler (lines 131–146 and the shared
`w.Write(ToJson(&Msg\x7bMsg: "OK"\x7d))` at line 202): on a `StoreJsonKV` error,
log it, answer 400 with the rollback message; on success log the
pair count and answer with the fixed OK body.  The third component collects
the messages handed to the logger (`logErr`/`logMsg` without their
request prefix). -/
def handlePut (a : Store) (stream : List DecodeEvent) (gen : Nat → String)
    (failAt : Nat → Option String) (delErr : Nat → Option String) (fuel : Nat)
    (w : RespWriter) : Option (Store × RespWriter × List String) :=
  match StoreJsonKV a stream gen failAt delErr fuel with
  | none => none
  | some (a', .error e) =>
    some (a', (w.writeHeader 400).write
      (ToJsonMsg ("Error: unable to store key-value pairs, all pairs in this transaction rolled back: " ++ e)),
      [e])
  | some (a', .ok d) =>
    some (a', w.write (ToJsonMsg "OK"), [persistLog d.length])

/-- The failure oracle of the GET enumeration transaction: `ok` — every
store call succeeds; `keysErr e` — `s.Keys()` fails; `loadErr i e` — the
i-th loop iteration fails (a `Load` error, a failed type assertion, a
`Marshal` error, or the response write failing) before its line reaches
the body. -/
inductive EnumFail where
  | ok : EnumFail
  | keysErr : String → EnumFail
  | loadErr : Nat → String → EnumFail
  deriving Repr, DecidableEq

/-- The sentinel remap of the GET handler (lines 166–168): a stored logical
key equal to `SERVER_ERROR` is emitted as `server_error`. -/
def remapKey (k : String) : String :=
  if k == "SERVER_ERROR" then "server_error" else k

/-- One line of the enumeration body (lines 162–176): the compact JSON of
the one-entry map, newline-terminated. -/
def enumLine (d : Data) : String :=
  marshalKV (remapKey d.Key) d.Ciphertext ++ "\n"

/-- The key loop of the GET transaction (lines 157–179) over the loaded
records, threading the response writer. -/
def runGetLoop (fail : EnumFail) : List Data → Nat → RespWriter → RespWriter × Option String
  | [], _, w => (w, none)
  | d :: rest, i, w =>
    match fail with
    | .loadErr j e =>
      if i = j then (w, some e)
      else runGetLoop fail rest (i + 1) (w.write (enumLine d))
    | _ => runGetLoop fail rest (i + 1) (w.write (enumLine d))

/-- The body of the GET `Run` transaction (lines 152–181): list the keys
(which may itself fail), then loop over the records.  The record order is
the store's listing order (unspecified in Go; determinized here as store
order). -/
def runGet (s : Store) (fail : EnumFail) (w : RespWriter) : RespWriter × Option String :=
  match fail with
  | .keysErr e => (w, some e)
  | _ => runGetLoop fail (s.map Prod.snd) 0 w

/-- The `http.MethodGet` arm of the handler (lines 147–190):
`WriteHeader(200)` first, then the enumeration transaction; on a
transaction error the `WriteHeader(500)` is superfluous (the status is
already committed) and the `SERVER_ERROR` object is appended to the
body. -/
def handleGet (s : Store) (fail : EnumFail) (w0 : RespWriter) : RespWriter :=
  let w1 := w0.writeHeader 200
  match runGet s fail w1 with
  | (w2, none) => w2
  | (w2, some e) => (w2.writeHeader 500).write (ToJsonServerError e)

/-- A concrete surrogate-key generator for evaluating the model: the i-th
draw is the decimal numeral of `i` (injective, so collisions with any
concrete finite store resolve within the fuel bound). -/
def cgen (i : Nat) : String := Nat.repr i

theorem hasKey_false_iff {s : Store} {k : String} :
    AnyStore.HasKey s k = false ↔ ∀ p ∈ s, p.1 ≠ k := by
  simp [AnyStore.HasKey]

theorem hasKey_append {s t : Store} {k : String} :
    AnyStore.HasKey (s ++ t) k = (AnyStore.HasKey s k || AnyStore.HasKey t k) := by
  simp [AnyStore.HasKey]

theorem storeKV_fresh {s : Store} {k : String} {v : Data}
    (h : AnyStore.HasKey s k = false) :
    AnyStore.StoreKV s k v = s ++ [(k, v)] := by
  simp [AnyStore.StoreKV, h]

theorem delete_of_fresh {s : Store} {k : String}
    (h : AnyStore.HasKey s k = false) :
    AnyStore.Delete s k = s := by
  rw [AnyStore.Delete, List.filter_eq_self]
  intro p hp
  simpa using hasKey_false_iff.mp h p hp

theorem delete_append {s t : Store} {k : String} :
    AnyStore.Delete (s ++ t) k = AnyStore.Delete s k ++ AnyStore.Delete t k := by
  simp [AnyStore.Delete]

theorem freshKey_not_hasKey {gen : Nat → String} {s : Store} :
    ∀ {i fuel : Nat} {k : String} {i' : Nat},
      freshKey gen s i fuel = some (k, i') → AnyStore.HasKey s k = false := by
  intro i fuel
  induction fuel generalizing i with
  | zero => intro k i' h; simp [freshKey] at h
  | succ n ih =>
    intro k i' h
    simp only [freshKey] at h
    by_cases hc : AnyStore.HasKey s (gen i)
    · rw [if_pos hc] at h
      exact ih h
    · rw [if_neg hc] at h
      cases h
      exact Bool.eq_false_iff.mpr hc

theorem rollback_restores (delErr : Nat → Option String) :
    ∀ (pairs : List (String × Data)) (s₀ : Store) (j : Nat),
      (∀ p ∈ pairs, AnyStore.HasKey s₀ p.1 = false) →
      (pairs.map Prod.fst).Nodup →
      rollback delErr (pairs.map Prod.fst) (s₀ ++ pairs) j = s₀ := by
  intro pairs
  induction pairs with
  | nil => intro s₀ j _ _; simp [rollback]
  | cons p rest ih =>
    intro s₀ j hfresh hnodup
    obtain ⟨k, v⟩ := p
    simp only [List.map_cons, List.nodup_cons] at hnodup
    obtain ⟨hk_notin, hrest_nodup⟩ := hnodup
    have hk_fresh : AnyStore.HasKey s₀ k = false := hfresh (k, v) (by simp)
    have hrest_fresh : AnyStore.HasKey rest k = false := by
      rw [hasKey_false_iff]
      intro q hq hqk
      exact hk_notin (List.mem_map.mpr ⟨q, hq, hqk⟩)
    simp only [List.map_cons, rollback, AnyStore.DeleteE]
    have hdel : AnyStore.Delete (s₀ ++ (k, v) :: rest) k = s₀ ++ rest := by
      have : (k, v) :: rest = [(k, v)] ++ rest := rfl
      rw [this, ← List.append_assoc, delete_append, delete_append,
        delete_of_fresh hk_fresh, delete_of_fresh hrest_fresh]
      simp [AnyStore.Delete]
    rw [hdel]
    exact ih s₀ (j + 1) (fun q hq => hfresh q (by simp [hq])) hrest_nodup

theorem runStore_fail (gen : Nat → String) (delErr : Nat → Option String)
    (fuel : Nat) (c : Nat) (eMsg : String) :
    ∀ (rest : List Data) (s₀ : Store) (pairs : List (String × Data)) (i w : Nat)
      (s' : Store) (r : Option String),
      (∀ p ∈ pairs, AnyStore.HasKey s₀ p.1 = false) →
      (pairs.map Prod.fst).Nodup →
      w ≤ c → c < w + rest.length →
      runStore gen (fun j => if j = c then some eMsg else none) delErr fuel rest
        (s₀ ++ pairs) (pairs.map Prod.fst) i w = some (s', r) →
      s' = s₀ ∧ r = some eMsg := by
  intro rest
  induction rest with
  | nil =>
    intro s₀ pairs i w s' r _ _ hwc hcw _
    simp at hcw
    omega
  | cons d rest ih =>
    intro s₀ pairs i w s' r hfresh hnodup hwc hcw h
    simp only [runStore] at h
    cases hfk : freshKey gen (s₀ ++ pairs) i fuel with
    | none => rw [hfk] at h; cases h
    | some ki =>
      obtain ⟨k, i'⟩ := ki
      rw [hfk] at h
      by_cases hw : w = c
      · subst hw
        simp only [if_pos rfl] at h
        injection h with h'
        have hs : rollback delErr (pairs.map Prod.fst) (s₀ ++ pairs) 0 = s₀ :=
          rollback_restores delErr pairs s₀ 0 hfresh hnodup
        constructor
        · have := congrArg Prod.fst h'
          simp at this
          rw [← this, hs]
        · have := congrArg Prod.snd h'
          simp at this
          exact this.symm
      · simp only [if_neg hw] at h
        have hkfresh : AnyStore.HasKey (s₀ ++ pairs) k = false := freshKey_not_hasKey hfk
        have hk_s₀ : AnyStore.HasKey s₀ k = false := by
          rw [hasKey_append] at hkfresh
          exact (Bool.or_eq_false_iff.mp hkfresh).1
        have hk_pairs : AnyStore.HasKey pairs k = false := by
          rw [hasKey_append] at hkfresh
          exact (Bool.or_eq_false_iff.mp hkfresh).2
        rw [storeKV_fresh hkfresh, List.append_assoc] at h
        have hmap : pairs.map Prod.fst ++ [k] = (pairs ++ [(k, d)]).map Prod.fst := by
          simp
        rw [hmap] at h
        refine ih s₀ (pairs ++ [(k, d)]) i' (w + 1) s' r ?_ ?_ (by omega) (by simp at hcw ⊢; omega) h
        · intro p hp
          rcases List.mem_append.mp hp with hp | hp
          · exact hfresh p hp
          · simp at hp
            subst hp
            exact hk_s₀
        · simp only [List.map_append, List.map_cons, List.map_nil]
          rw [List.nodup_append]
          refine ⟨hnodup, List.nodup_singleton k, ?_⟩
          intro x hx hx'
          simp at hx'
          subst hx'
          obtain ⟨q, hq, hqk⟩ := List.mem_map.mp hx
          exact absurd hqk (hasKey_false_iff.mp hk_pairs q hq)

theorem runStore_ok (gen : Nat → String) (failAt delErr : Nat → Option String) (fuel : Nat) :
    ∀ (rest : List Data) (s : Store) (rb : List String) (i w : Nat) (s' : Store),
      runStore gen failAt delErr fuel rest s rb i w = some (s', none) →
      ∃ pairs : List (String × Data),
        s' = s ++ pairs ∧ pairs.map Prod.snd = rest ∧
        (∀ p ∈ pairs, AnyStore.HasKey s p.1 = false) ∧
        (pairs.map Prod.fst).Nodup := by
  intro rest
  induction rest with
  | nil =>
    intro s rb i w s' h
    simp only [runStore, Option.some.injEq, Prod.mk.injEq] at h
    exact ⟨[], by simp [h.1.symm], rfl, by simp, by simp⟩
  | cons d rest ih =>
    intro s rb i w s' h
    simp only [runStore] at h
    cases hfk : freshKey gen s i fuel with
    | none => rw [hfk] at h; cases h
    | some ki =>
      obtain ⟨k, i'⟩ := ki
      simp only [hfk] at h
      cases hfa : failAt w with
      | some e => simp [hfa] at h
      | none =>
        simp only [hfa] at h
        have hks : AnyStore.HasKey s k = false := freshKey_not_hasKey hfk
        rw [storeKV_fresh hks] at h
        obtain ⟨pairs', h1, h2, h3, h4⟩ := ih (s ++ [(k, d)]) (rb ++ [k]) i' (w + 1) s' h
        refine ⟨(k, d) :: pairs', ?_, by simp [h2], ?_, ?_⟩
        · rw [h1, List.append_assoc]
          rfl
        · intro p hp
          rcases List.mem_cons.mp hp with hp | hp
          · subst hp
            exact hks
          · have := h3 p hp
            rw [hasKey_append] at this
            exact (Bool.or_eq_false_iff.mp this).1
        · simp only [List.map_cons, List.nodup_cons]
          refine ⟨?_, h4⟩
          intro hmem
          obtain ⟨p, hp, hpk⟩ := List.mem_map.mp hmem
          have := h3 p hp
          rw [hasKey_append] at this
          have h2' := (Bool.or_eq_false_iff.mp this).2
          rw [hpk] at h2'
          simp [AnyStore.HasKey] at h2'

theorem storeJsonKV_fail_aux (a : Store) (stream : List DecodeEvent)
    (batch : List Data) (k : Nat) (eMsg : String) (gen : Nat → String)
    (delErr : Nat → Option String) (fuel : Nat) (a' : Store)
    (r : Except String (List Data))
    (hdec : decodeStream stream = .ok batch)
    (hk1 : 1 ≤ k) (hkN : k ≤ batch.length)
    (hres : StoreJsonKV a stream gen (fun j => if j = k - 1 then some eMsg else none)
      delErr fuel = some (a', r)) :
    a' = a ∧ r = .error eMsg := by
  simp only [StoreJsonKV, hdec] at hres
  cases hrun : runStore gen (fun j => if j = k - 1 then some eMsg else none) delErr fuel
      batch a [] 0 0 with
  | none => simp [hrun] at hres
  | some p =>
    obtain ⟨s', ro⟩ := p
    have h0 : runStore gen (fun j => if j = k - 1 then some eMsg else none) delErr fuel batch
        (a ++ ([] : List (String × Data))) (([] : List (String × Data)).map Prod.fst) 0 0 =
        some (s', ro) := by
      simpa using hrun
    obtain ⟨hs, hr⟩ := runStore_fail gen delErr fuel (k - 1) eMsg batch a [] 0 0 s' ro
      (by simp) (by simp) (by omega) (by simp; omega) h0
    subst hs
    subst hr
    simp only [hrun] at hres
    injection hres with h'
    have h1 := congrArg Prod.fst h'
    have h2 := congrArg Prod.snd h'
    simp at h1 h2
    exact ⟨h1.symm, h2.symm⟩

theorem storeJsonKV_ok_aux (a : Store) (stream : List DecodeEvent)
    (gen : Nat → String) (failAt delErr : Nat → Option String) (fuel : Nat)
    (a' : Store) (ds : List Data)
    (hres : StoreJsonKV a stream gen failAt delErr fuel = some (a', .ok ds)) :
    decodeStream stream = .ok ds ∧
      ∃ pairs : List (String × Data),
        a' = a ++ pairs ∧ pairs.map Prod.snd = ds ∧
        (∀ p ∈ pairs, AnyStore.HasKey a p.1 = false) ∧
        (pairs.map Prod.fst).Nodup := by
  rw [StoreJsonKV] at hres
  cases hdec : decodeStream stream with
  | error e => simp [hdec] at hres
  | ok tx =>
    simp only [hdec] at hres
    cases hrun : runStore gen failAt delErr fuel tx a [] 0 0 with
    | none => rw [hrun] at hres; cases hres
    | some p =>
      obtain ⟨s', ro⟩ := p
      simp only [hrun] at hres
      cases ro with
      | some e2 => simp at hres
      | none =>
        simp only [Option.some.injEq, Prod.mk.injEq, Except.ok.injEq] at hres
        obtain ⟨h1, h2⟩ := hres
        rw [← h1, ← h2]
        exact ⟨rfl, runStore_ok gen failAt delErr fuel tx a [] 0 0 s' hrun⟩

theorem storeJsonKV_decode_error_aux (a : Store) (stream : List DecodeEvent)
    (e : String) (gen : Nat → String) (failAt delErr : Nat → Option String) (fuel : Nat)
    (hdec : decodeStream stream = .error e) :
    StoreJsonKV a stream gen failAt delErr fuel = some (a, .error e) := by
  simp [StoreJsonKV, hdec]

theorem rollback_delErr_irrel (d1 d2 : Nat → Option String) :
    ∀ (ks : List String) (s : Store) (j1 j2 : Nat),
      rollback d1 ks s j1 = rollback d2 ks s j2 := by
  intro ks
  induction ks with
  | nil => intro s j1 j2; rfl
  | cons k ks ih =>
    intro s j1 j2
    simp only [rollback, AnyStore.DeleteE]
    exact ih _ _ _

theorem runStore_delErr_irrel (gen : Nat → String) (failAt : Nat → Option String)
    (d1 d2 : Nat → Option String) (fuel : Nat) :
    ∀ (rest : List Data) (s : Store) (rb : List String) (i w : Nat),
      runStore gen failAt d1 fuel rest s rb i w =
        runStore gen failAt d2 fuel rest s rb i w := by
  intro rest
  induction rest with
  | nil => intro s rb i w; rfl
  | cons d rest ih =>
    intro s rb i w
    simp only [runStore]
    cases freshKey gen s i fuel with
    | none => rfl
    | some ki =>
      obtain ⟨k, i'⟩ := ki
      cases failAt w with
      | some e =>
        simp only
        rw [rollback_delErr_irrel d1 d2]
      | none =>
        simp only
        exact ih _ _ _ _

theorem storeJsonKV_delErr_irrel (a : Store) (stream : List DecodeEvent)
    (gen : Nat → String) (failAt : Nat → Option String)
    (d1 d2 : Nat → Option String) (fuel : Nat) :
    StoreJsonKV a stream gen failAt d1 fuel = StoreJsonKV a stream gen failAt d2 fuel := by
  rw [StoreJsonKV, StoreJsonKV]
  cases decodeStream stream with
  | error e => rfl
  | ok tx =>
    simp only
    rw [runStore_delErr_irrel gen failAt d1 d2 fuel tx a [] 0 0]

/-- C1: for every decoded batch of `N ≥ 1` records, if the k-th store write
of the transaction fails (`1 ≤ k ≤ N`), then once `StoreJsonKV` returns it
returns an error — the write error — and the final store equals the store
before the call: every surrogate id written earlier in the transaction has
been deleted, so the store holds zero records of the batch. -/
theorem storeJsonKV_atomic_rollback (a : Store) (stream : List DecodeEvent)
    (batch : List Data) (k : Nat) (eMsg : String) (gen : Nat → String)
    (delErr : Nat → Option String) (fuel : Nat) (a' : Store)
    (r : Except String (List Data))
    (hdec : decodeStream stream = .ok batch)
    (hk1 : 1 ≤ k) (hkN : k ≤ batch.length)
    (hres : StoreJsonKV a stream gen (fun j => if j = k - 1 then some eMsg else none)
      delErr fuel = some (a', r)) :
    a' = a ∧ r = .error eMsg :=
  storeJsonKV_fail_aux a stream batch k eMsg gen delErr fuel a' r hdec hk1 hkN hres

/-- Witness for C1: a two-record batch whose second write fails is rolled
back to the empty store and the write error is returned. -/
theorem storeJsonKV_atomic_rollback_witness :
    ([] : Store) = [] ∧
      (Except.error "boom" : Except String (List Data)) = Except.error "boom" :=
  storeJsonKV_atomic_rollback [] [Except.ok [("x", [1]), ("y", [2])]]
    [⟨"x", [1]⟩, ⟨"y", [2]⟩] 2 "boom" cgen (fun _ => none) 3 [] (Except.error "boom")
    rfl (by decide) (by decide) rfl

/-- C2: when JSON decoding of the stream fails, `StoreJsonKV` returns the
decode error and the store is exactly as before the call, for every store
and every transaction-phase oracle — no store operation is performed, no
transaction is run. -/
theorem storeJsonKV_decode_error_no_write (a : Store) (stream : List DecodeEvent)
    (e : String) (gen : Nat → String) (failAt delErr : Nat → Option String) (fuel : Nat)
    (hdec : decodeStream stream = .error e) :
    StoreJsonKV a stream gen failAt delErr fuel = some (a, .error e) :=
  storeJsonKV_decode_error_aux a stream e gen failAt delErr fuel hdec

/-- Witness for C2: a malformed stream leaves a one-record store untouched
and returns the decode error. -/
theorem storeJsonKV_decode_error_no_write_witness :
    StoreJsonKV [("z", ⟨"a", [0]⟩)] [Except.error "bad"] cgen (fun _ => none)
      (fun _ => none) 3 = some ([("z", ⟨"a", [0]⟩)], Except.error "bad") :=
  storeJsonKV_decode_error_no_write [("z", ⟨"a", [0]⟩)] [Except.error "bad"] "bad"
    cgen (fun _ => none) (fun _ => none) 3 rfl

/-- C3: every successful ingestion only appends: the final store is the
initial store followed by one new pair per batch record, each written
under a surrogate id the store did not contain (fresh against the initial
store and pairwise distinct, hence fresh at its write moment), so no
pre-existing record is overwritten and resubmitting a logical key creates
an independent record. -/
theorem storeJsonKV_append_only_fresh_keys (a : Store) (stream : List DecodeEvent)
    (gen : Nat → String) (failAt delErr : Nat → Option String) (fuel : Nat)
    (a' : Store) (ds : List Data)
    (hres : StoreJsonKV a stream gen failAt delErr fuel = some (a', .ok ds)) :
    ∃ pairs : List (String × Data),
      a' = a ++ pairs ∧ pairs.map Prod.snd = ds ∧
      (∀ p ∈ pairs, AnyStore.HasKey a p.1 = false) ∧
      (pairs.map Prod.fst).Nodup :=
  (storeJsonKV_ok_aux a stream gen failAt delErr fuel a' ds hres).2

/-- Witness for C3: storing one record in the empty store appends exactly
one freshly-keyed pair. -/
theorem storeJsonKV_append_only_fresh_keys_witness :
    ∃ pairs : List (String × Data),
      [("0", (⟨"x", [1]⟩ : Data))] = [] ++ pairs ∧
      pairs.map Prod.snd = [⟨"x", [1]⟩] ∧
      (∀ p ∈ pairs, AnyStore.HasKey [] p.1 = false) ∧
      (pairs.map Prod.fst).Nodup :=
  storeJsonKV_append_only_fresh_keys [] [Except.ok [("x", [1])]] cgen (fun _ => none)
    (fun _ => none) 3 [("0", ⟨"x", [1]⟩)] [⟨"x", [1]⟩] rfl

/-- C4: a stream carrying zero key/value entries decodes to the empty
batch; `StoreJsonKV` then returns the empty batch with no error and the
store unchanged, and the PUT handler answers 200 with the OK body, logging
the zero-pairs message — an empty ingestion is a success. -/
theorem storeJsonKV_empty_batch_success (a : Store) (stream : List DecodeEvent)
    (gen : Nat → String) (failAt delErr : Nat → Option String) (fuel : Nat)
    (hdec : decodeStream stream = .ok []) :
    StoreJsonKV a stream gen failAt delErr fuel = some (a, .ok []) ∧
      handlePut a stream gen failAt delErr fuel RespWriter.init =
        some (a, ⟨some 200, [ToJsonMsg "OK"]⟩, ["no key-value pairs persisted"]) := by
  have h1 : StoreJsonKV a stream gen failAt delErr fuel = some (a, .ok []) := by
    simp [StoreJsonKV, hdec, runStore]
  refine ⟨h1, ?_⟩
  simp [handlePut, h1, persistLog, RespWriter.write, RespWriter.init]

/-- Witness for C4: the empty stream is a successful no-op. -/
theorem storeJsonKV_empty_batch_success_witness :
    StoreJsonKV [("z", ⟨"a", [0]⟩)] [] cgen (fun _ => none) (fun _ => none) 3 =
        some ([("z", ⟨"a", [0]⟩)], Except.ok []) ∧
      handlePut [("z", ⟨"a", [0]⟩)] [] cgen (fun _ => none) (fun _ => none) 3
        RespWriter.init =
        some ([("z", ⟨"a", [0]⟩)], ⟨some 200, [ToJsonMsg "OK"]⟩,
          ["no key-value pairs persisted"]) :=
  storeJsonKV_empty_batch_success [("z", ⟨"a", [0]⟩)] [] cgen (fun _ => none)
    (fun _ => none) 3 rfl

/-- C10: the rollback path propagates exactly the original write error:
the result of `StoreJsonKV` is the same function of the batch for every
rollback-delete-error oracle (the delete results are discarded), and under
a failing k-th write the returned error is precisely that write's error —
a failed rollback deletion is indistinguishable from a successful one in
the returned error. -/
theorem rollback_delete_errors_invisible (a : Store) (stream : List DecodeEvent)
    (batch : List Data) (k : Nat) (eMsg : String) (gen : Nat → String)
    (d1 d2 : Nat → Option String) (fuel : Nat) (a' : Store)
    (r : Except String (List Data))
    (hdec : decodeStream stream = .ok batch)
    (hk1 : 1 ≤ k) (hkN : k ≤ batch.length)
    (hres : StoreJsonKV a stream gen (fun j => if j = k - 1 then some eMsg else none)
      d1 fuel = some (a', r)) :
    r = .error eMsg ∧
      StoreJsonKV a stream gen (fun j => if j = k - 1 then some eMsg else none)
        d2 fuel = some (a', r) := by
  refine ⟨(storeJsonKV_fail_aux a stream batch k eMsg gen d1 fuel a' r hdec hk1 hkN hres).2, ?_⟩
  rw [storeJsonKV_delErr_irrel a stream gen _ d2 d1 fuel]
  exact hres

theorem digitChar_isDigit : ∀ d : Nat, d < 10 → (Nat.digitChar d).isDigit = true := by
  decide

theorem string_mk_data (l : List Char) : (String.mk l).data = l := rfl

theorem string_mk_length (l : List Char) : (String.mk l).length = l.length := rfl

theorem decDigitsCore_length_le :
    ∀ (fuel n k : Nat), 1 ≤ k → n < 10 ^ k → (decDigitsCore fuel n).length ≤ k := by
  intro fuel
  induction fuel with
  | zero => intro n k _ _; simp [decDigitsCore]
  | succ m ih =>
    intro n k hk hn
    rw [decDigitsCore]
    by_cases h10 : n < 10
    · rw [if_pos h10]
      simpa using hk
    · rw [if_neg h10]
      have hk2 : 2 ≤ k := by
        by_contra hlt
        have : k = 1 := by omega
        subst this
        simp at hn
        omega
      have hdiv : n / 10 < 10 ^ (k - 1) := by
        rw [Nat.div_lt_iff_lt_mul (by norm_num)]
        calc n < 10 ^ k := hn
          _ = 10 ^ (k - 1) * 10 := by
            rw [← pow_succ]
            congr 1
            omega
      have := ih (n / 10) (k - 1) (by omega) hdiv
      simp only [List.length_append, List.length_cons, List.length_nil]
      omega

theorem decDigitsCore_digits :
    ∀ (fuel n : Nat), ∀ c ∈ decDigitsCore fuel n, c.isDigit = true := by
  intro fuel
  induction fuel with
  | zero => intro n c hc; simp [decDigitsCore] at hc
  | succ m ih =>
    intro n c hc
    rw [decDigitsCore] at hc
    by_cases h10 : n < 10
    · rw [if_pos h10] at hc
      simp at hc
      subst hc
      exact digitChar_isDigit n h10
    · rw [if_neg h10] at hc
      rcases List.mem_append.mp hc with hc | hc
      · exact ih _ _ hc
      · simp at hc
        subst hc
        exact digitChar_isDigit _ (Nat.mod_lt _ (by norm_num))

theorem padNum_length {w n : Nat} (hw : 1 ≤ w) (hn : n < 10 ^ w) :
    (padNum w n).length = w := by
  have hle := decDigitsCore_length_le (n + 1) n w hw hn
  simp only [padNum, decDigits, string_mk_length, List.length_append,
    List.length_replicate]
  omega

theorem padNum_digits {w n : Nat} : ∀ c ∈ (padNum w n).data, c.isDigit = true := by
  intro c hc
  simp only [padNum, string_mk_data] at hc
  rcases List.mem_append.mp hc with hc | hc
  · have := List.eq_of_mem_replicate hc
    subst this
    decide
  · exact decDigitsCore_digits _ _ c hc

/-- C5: `RandomStamp` is total — for every time and every `Int63` draw it
returns a value — and that value is the Go-formatted UTC timestamp (layout
`20060102T150405.999999999`, sub-second precision) joined by the `_`
separator to the zero-padded decimal of the non-negative random integer,
which occupies exactly 19 digit characters for every draw in `[0, 2^63)`. -/
theorem randomStamp_total_format (t : GoTime) (r : Nat) (hr : r < 2 ^ 63) :
    RandomStamp t r = goTimeFormat t ++ "_" ++ padNum 19 r ∧
      (padNum 19 r).length = 19 ∧
      (∀ c ∈ (padNum 19 r).data, c.isDigit = true) := by
  refine ⟨rfl, padNum_length (by norm_num) ?_, padNum_digits⟩
  calc r < 2 ^ 63 := hr
    _ < 10 ^ 19 := by norm_num

/-- Witness for C5: the largest `Int63` value still pads to exactly 19
digits after the separator. -/
theorem randomStamp_total_format_witness :
    RandomStamp ⟨2023, 9, 27, 21, 46, 14, 0⟩ 9223372036854775807 =
        goTimeFormat ⟨2023, 9, 27, 21, 46, 14, 0⟩ ++ "_" ++
          padNum 19 9223372036854775807 ∧
      (padNum 19 9223372036854775807).length = 19 ∧
      (∀ c ∈ (padNum 19 9223372036854775807).data, c.isDigit = true) :=
  randomStamp_total_format ⟨2023, 9, 27, 21, 46, 14, 0⟩ 9223372036854775807
    (by norm_num)

theorem runGetLoop_ok_run :
    ∀ (ds : List Data) (i : Nat) (b : List String),
      runGetLoop .ok ds i ⟨some 200, b⟩ = (⟨some 200, b ++ ds.map enumLine⟩, none) := by
  intro ds
  induction ds with
  | nil => intro i b; simp [runGetLoop]
  | cons d rest ih =>
    intro i b
    simp only [runGetLoop, RespWriter.write, Option.getD]
    rw [ih (i + 1) (b ++ [enumLine d])]
    simp

theorem runGetLoop_loadErr_hit (e : String) :
    ∀ (ds : List Data) (j i : Nat) (b : List String),
      i ≤ j → j - i < ds.length →
      runGetLoop (.loadErr j e) ds i ⟨some 200, b⟩ =
        (⟨some 200, b ++ (ds.take (j - i)).map enumLine⟩, some e) := by
  intro ds
  induction ds with
  | nil => intro j i b _ h; simp at h
  | cons d rest ih =>
    intro j i b hij hlt
    simp only [runGetLoop]
    by_cases hji : i = j
    · subst hji
      rw [if_pos rfl]
      simp
    · rw [if_neg (fun h => hji h)]
      simp only [RespWriter.write, Option.getD]
      have h2 : j - (i + 1) < rest.length := by
        simp only [List.length_cons] at hlt
        omega
      rw [ih j (i + 1) (b ++ [enumLine d]) (by omega) h2]
      have hsplit : j - i = (j - (i + 1)) + 1 := by omega
      rw [hsplit, List.take_succ_cons]
      simp

theorem runGetLoop_loadErr_miss (e : String) :
    ∀ (ds : List Data) (j i : Nat) (b : List String),
      (j < i ∨ ds.length ≤ j - i) →
      runGetLoop (.loadErr j e) ds i ⟨some 200, b⟩ =
        (⟨some 200, b ++ ds.map enumLine⟩, none) := by
  intro ds
  induction ds with
  | nil => intro j i b _; simp [runGetLoop]
  | cons d rest ih =>
    intro j i b hmiss
    have hne : i ≠ j := by
      rcases hmiss with h | h
      · omega
      · simp only [List.length_cons] at h
        omega
    simp only [runGetLoop, if_neg hne, RespWriter.write, Option.getD]
    have hmiss' : j < i + 1 ∨ rest.length ≤ j - (i + 1) := by
      rcases hmiss with h | h
      · left; omega
      · simp only [List.length_cons] at h
        omega
    rw [ih j (i + 1) (b ++ [enumLine d]) hmiss']
    simp

theorem handleGet_ok_eq (s : Store) :
    handleGet s .ok RespWriter.init = ⟨some 200, (s.map Prod.snd).map enumLine⟩ := by
  have h := runGetLoop_ok_run (s.map Prod.snd) 0 []
  simp [handleGet, runGet, RespWriter.init, RespWriter.writeHeader, h]

theorem handleGet_keysErr_eq (s : Store) (e : String) :
    handleGet s (.keysErr e) RespWriter.init = ⟨some 200, [ToJsonServerError e]⟩ := by
  simp [handleGet, runGet, RespWriter.init, RespWriter.writeHeader, RespWriter.write]

theorem handleGet_loadErr_hit_eq (s : Store) (j : Nat) (e : String) (hj : j < s.length) :
    handleGet s (.loadErr j e) RespWriter.init =
      ⟨some 200, ((s.map Prod.snd).take j).map enumLine ++ [ToJsonServerError e]⟩ := by
  have h := runGetLoop_loadErr_hit e (s.map Prod.snd) j 0 [] (by omega)
    (by simp only [Nat.sub_zero, List.length_map]; exact hj)
  simp only [Nat.sub_zero] at h
  simp [handleGet, runGet, RespWriter.init, RespWriter.writeHeader, RespWriter.write, h]

theorem handleGet_loadErr_miss_eq (s : Store) (j : Nat) (e : String) (hj : s.length ≤ j) :
    handleGet s (.loadErr j e) RespWriter.init =
      ⟨some 200, (s.map Prod.snd).map enumLine⟩ := by
  have h := runGetLoop_loadErr_miss e (s.map Prod.snd) j 0 []
    (Or.inr (by simp only [Nat.sub_zero, List.length_map]; exact hj))
  simp [handleGet, runGet, RespWriter.init, RespWriter.writeHeader, h]

theorem handlePut_ok_eq (a : Store) (stream : List DecodeEvent) (gen : Nat → String)
    (failAt delErr : Nat → Option String) (fuel : Nat) (a' : Store) (ds : List Data)
    (h : StoreJsonKV a stream gen failAt delErr fuel = some (a', .ok ds)) :
    handlePut a stream gen failAt delErr fuel RespWriter.init =
      some (a', ⟨some 200, [ToJsonMsg "OK"]⟩, [persistLog ds.length]) := by
  simp [handlePut, h, RespWriter.write, RespWriter.init]

theorem handlePut_err_eq (a : Store) (stream : List DecodeEvent) (gen : Nat → String)
    (failAt delErr : Nat → Option String) (fuel : Nat) (a' : Store) (e : String)
    (h : StoreJsonKV a stream gen failAt delErr fuel = some (a', .error e)) :
    handlePut a stream gen failAt delErr fuel RespWriter.init =
      some (a', ⟨some 400,
        [ToJsonMsg ("Error: unable to store key-value pairs, all pairs in this transaction rolled back: " ++ e)]⟩,
        [e]) := by
  simp [handlePut, h, RespWriter.write, RespWriter.writeHeader, RespWriter.init]

/-- C6 as stated is false on the code: at a concrete successful write of
one pair the response body is the fixed OK object `ToJsonMsg "OK"`; the
confirmation count appears only in the log component, and the OK body is
not the count string. -/
theorem put_body_is_ok_not_count_counterexample :
    handlePut [] [Except.ok [("x", [1])]] cgen (fun _ => none) (fun _ => none) 3
        RespWriter.init =
      some ([("0", ⟨"x", [1]⟩)], ⟨some 200, [ToJsonMsg "OK"]⟩,
        ["persisted 1 key-value pair"]) ∧
      ToJsonMsg "OK" ≠ "persisted 1 key-value pair" :=
  ⟨rfl, by decide⟩

/-- C6 amended: a successful write answers 200 with the fixed JSON body
`{"message": "OK"}` while the human-readable confirmation count
("persisted N key-value pairs", singular/plural chosen correctly for
N ≥ 1, "no key-value pairs persisted" for N = 0) is written to the server
log, not the response body; a malformed body answers 400 with an error
message and nothing is persisted (the store is returned unchanged). -/
theorem put_ok_fixed_body_count_logged (a : Store) (stream : List DecodeEvent)
    (gen : Nat → String) (failAt delErr : Nat → Option String) (fuel : Nat) :
    (∀ (a' : Store) (ds : List Data),
      StoreJsonKV a stream gen failAt delErr fuel = some (a', .ok ds) →
      handlePut a stream gen failAt delErr fuel RespWriter.init =
        some (a', ⟨some 200, [ToJsonMsg "OK"]⟩, [persistLog ds.length])) ∧
      persistLog 0 = "no key-value pairs persisted" ∧
      persistLog 1 = "persisted 1 key-value pair" ∧
      (∀ n, 2 ≤ n → persistLog n = "persisted " ++ Nat.repr n ++ " key-value pairs") ∧
      (∀ e, decodeStream stream = .error e →
        handlePut a stream gen failAt delErr fuel RespWriter.init =
          some (a, ⟨some 400,
            [ToJsonMsg ("Error: unable to store key-value pairs, all pairs in this transaction rolled back: " ++ e)]⟩,
            [e])) := by
  refine ⟨fun a' ds h => handlePut_ok_eq a stream gen failAt delErr fuel a' ds h,
    by decide, by decide, ?_, ?_⟩
  · intro n hn
    rw [persistLog, if_pos (by omega)]
  · intro e he
    exact handlePut_err_eq a stream gen failAt delErr fuel a e
      (storeJsonKV_decode_error_aux a stream e gen failAt delErr fuel he)

/-- Witness for the amended C6: a successful two-pair write answers with
the OK body and logs the plural count; a malformed body answers 400. -/
theorem put_ok_fixed_body_count_logged_witness :
    handlePut [] [Except.ok [("x", [1]), ("y", [2])]] cgen (fun _ => none)
        (fun _ => none) 5 RespWriter.init =
      some ([("0", ⟨"x", [1]⟩), ("1", ⟨"y", [2]⟩)], ⟨some 200, [ToJsonMsg "OK"]⟩,
        ["persisted 2 key-value pairs"]) := by
  have h := (put_ok_fixed_body_count_logged [] [Except.ok [("x", [1]), ("y", [2])]]
    cgen (fun _ => none) (fun _ => none) 5).1
    [("0", ⟨"x", [1]⟩), ("1", ⟨"y", [2]⟩)] [⟨"x", [1]⟩, ⟨"y", [2]⟩] rfl
  have hl : persistLog [(⟨"x", [1]⟩ : Data), ⟨"y", [2]⟩].length =
      "persisted 2 key-value pairs" := by decide
  rw [hl] at h
  exact h

/-- C7: every GET response has transport status 200, whatever the
enumeration outcome; on success the body is one newline-terminated JSON
object per stored record; on a failure — of the key listing or of the j-th
iteration — the body is the lines already emitted followed by exactly one
trailing `SERVER_ERROR` object, the error never being signalled through
the transport status. -/
theorem handleGet_always_200_sentinel_trailer (s : Store) (fail : EnumFail) :
    (handleGet s fail RespWriter.init).status = some 200 ∧
      (fail = .ok →
        (handleGet s fail RespWriter.init).body = (s.map Prod.snd).map enumLine) ∧
      (∀ e, fail = .keysErr e →
        (handleGet s fail RespWriter.init).body = [ToJsonServerError e]) ∧
      (∀ j e, fail = .loadErr j e → j < s.length →
        (handleGet s fail RespWriter.init).body =
          ((s.map Prod.snd).take j).map enumLine ++ [ToJsonServerError e]) := by
  cases fail with
  | ok =>
    rw [handleGet_ok_eq s]
    exact ⟨rfl, fun _ => rfl, fun e h => EnumFail.noConfusion h,
      fun j e h => EnumFail.noConfusion h⟩
  | keysErr e0 =>
    rw [handleGet_keysErr_eq s e0]
    refine ⟨rfl, fun h => EnumFail.noConfusion h, fun e h => ?_,
      fun j e h => EnumFail.noConfusion h⟩
    cases h
    rfl
  | loadErr j0 e0 =>
    by_cases hj : j0 < s.length
    · rw [handleGet_loadErr_hit_eq s j0 e0 hj]
      refine ⟨rfl, fun h => EnumFail.noConfusion h, fun e h => EnumFail.noConfusion h,
        fun j e h hj' => ?_⟩
      cases h
      rfl
    · rw [handleGet_loadErr_miss_eq s j0 e0 (by omega)]
      refine ⟨rfl, fun h => EnumFail.noConfusion h, fun e h => EnumFail.noConfusion h,
        fun j e h hj' => ?_⟩
      cases h
      exact absurd hj' hj

/-- Witness for C7: with a one-record store whose single load fails, the
status is still 200 and the body is exactly the trailing sentinel
object. -/
theorem handleGet_always_200_sentinel_trailer_witness :
    (handleGet [("0", ⟨"x", [72, 105]⟩)] (.loadErr 0 "oops") RespWriter.init).status =
        some 200 ∧
      (handleGet [("0", ⟨"x", [72, 105]⟩)] (.loadErr 0 "oops") RespWriter.init).body =
        [ToJsonServerError "oops"] := by
  have h := handleGet_always_200_sentinel_trailer [("0", ⟨"x", [72, 105]⟩)]
    (.loadErr 0 "oops")
  refine ⟨h.1, ?_⟩
  have hb := h.2.2.2 0 "oops" rfl (by decide)
  simpa using hb

/-- C8: a stored record whose logical key is exactly the sentinel string
`SERVER_ERROR` is emitted under the remapped key `server_error`; the
emitted key of a data record is never the sentinel, so a data line can
never be mistaken for the error object, and every record's line does
appear in the successful enumeration body. -/
theorem enumeration_sentinel_remap (s : Store) (d : Data) (hd : d ∈ s.map Prod.snd) :
    enumLine d = marshalKV (remapKey d.Key) d.Ciphertext ++ "\n" ∧
      remapKey d.Key ≠ "SERVER_ERROR" ∧
      (d.Key = "SERVER_ERROR" → remapKey d.Key = "server_error") ∧
      enumLine d ∈ (handleGet s .ok RespWriter.init).body := by
  refine ⟨rfl, ?_, ?_, ?_⟩
  · rw [remapKey]
    by_cases h : d.Key == "SERVER_ERROR"
    · rw [if_pos h]
      decide
    · rw [if_neg (fun hh => h hh)]
      intro he
      exact absurd (by simp [he]) h
  · intro hk
    simp [remapKey, hk]
  · rw [handleGet_ok_eq s]
    exact List.mem_map_of_mem enumLine hd

/-- Witness for C8: a record stored under logical key `SERVER_ERROR` is
enumerated as `server_error`. -/
theorem enumeration_sentinel_remap_witness :
    enumLine ⟨"SERVER_ERROR", [1]⟩ =
        marshalKV (remapKey "SERVER_ERROR") [1] ++ "\n" ∧
      remapKey "SERVER_ERROR" ≠ "SERVER_ERROR" ∧
      ("SERVER_ERROR" = "SERVER_ERROR" → remapKey "SERVER_ERROR" = "server_error") ∧
      enumLine ⟨"SERVER_ERROR", [1]⟩ ∈
        (handleGet [("0", ⟨"SERVER_ERROR", [1]⟩)] .ok RespWriter.init).body :=
  enumeration_sentinel_remap [("0", ⟨"SERVER_ERROR", [1]⟩)] ⟨"SERVER_ERROR", [1]⟩
    (by simp)

/-- C9: a key/value pair submitted once via any successful write — the
committed batch contains that `Data` exactly once and the store did not
already hold it — afterwards has exactly one record in the store whose
logical key and ciphertext equal the submitted pair byte for byte, and
that record's line appears in a subsequent enumeration. -/
theorem round_trip_exactly_once (a : Store) (stream : List DecodeEvent)
    (gen : Nat → String) (failAt delErr : Nat → Option String) (fuel : Nat)
    (a' : Store) (k : String) (v : List Nat) (ds : List Data)
    (hres : StoreJsonKV a stream gen failAt delErr fuel = some (a', .ok ds))
    (hsub : (ds.filter (fun d => d == Data.mk k v)).length = 1)
    (hnew : ∀ p ∈ a, p.2 ≠ Data.mk k v) :
    ((a'.map Prod.snd).filter (fun d => d == Data.mk k v)).length = 1 ∧
      enumLine (Data.mk k v) ∈ (handleGet a' .ok RespWriter.init).body := by
  obtain ⟨-, pairs, h1, h2, -, -⟩ :=
    storeJsonKV_ok_aux a stream gen failAt delErr fuel a' ds hres
  subst h1
  have hfa : (a.map Prod.snd).filter (fun d => d == Data.mk k v) = [] := by
    rw [List.filter_eq_nil_iff]
    intro d hd
    obtain ⟨p, hp, hpd⟩ := List.mem_map.mp hd
    simp only [beq_iff_eq]
    rw [← hpd]
    exact hnew p hp
  constructor
  · rw [List.map_append, List.filter_append, List.length_append, hfa, h2]
    simpa using hsub
  · rw [handleGet_ok_eq]
    refine List.mem_map_of_mem enumLine ?_
    rw [List.map_append, h2]
    have hmem : Data.mk k v ∈ ds := by
      have hne : ds.filter (fun d => d == Data.mk k v) ≠ [] := by
        intro h0
        rw [h0] at hsub
        simp at hsub
      obtain ⟨x, hx⟩ := List.exists_mem_of_ne_nil _ hne
      obtain ⟨hxd, hxp⟩ := List.mem_filter.mp hx
      have hxe : x = Data.mk k v := by simpa using hxp
      rw [← hxe]
      exact hxd
    exact List.mem_append_right _ hmem

/-- Witness for C9: after a two-pair write into the empty store in which
the pair `("x", [72, 105])` appears once, exactly one record matches it
and its line is enumerated. -/
theorem round_trip_exactly_once_witness :
    (([("0", (⟨"x", [72, 105]⟩ : Data)), ("1", ⟨"y", [2]⟩)].map Prod.snd).filter
        (fun d => d == Data.mk "x" [72, 105])).length = 1 ∧
      enumLine (Data.mk "x" [72, 105]) ∈
        (handleGet [("0", ⟨"x", [72, 105]⟩), ("1", ⟨"y", [2]⟩)] .ok
          RespWriter.init).body :=
  round_trip_exactly_once [] [Except.ok [("x", [72, 105]), ("y", [2])]] cgen
    (fun _ => none) (fun _ => none) 5 [("0", ⟨"x", [72, 105]⟩), ("1", ⟨"y", [2]⟩)]
    "x" [72, 105] [⟨"x", [72, 105]⟩, ⟨"y", [2]⟩] rfl (by decide)
    (fun p hp => by cases hp)

/-- Witness for C10: with a failing second write, an always-failing delete
oracle yields the same result — the write error — as an always-succeeding
one. -/
theorem rollback_delete_errors_invisible_witness :
    (Except.error "boom" : Except String (List Data)) = Except.error "boom" ∧
      StoreJsonKV [] [Except.ok [("x", [1]), ("y", [2])]] cgen
        (fun j => if j = 1 then some "boom" else none)
        (fun _ => some "delete failed") 3 = some ([], Except.error "boom") :=
  rollback_delete_errors_invisible [] [Except.ok [("x", [1]), ("y", [2])]]
    [⟨"x", [1]⟩, ⟨"y", [2]⟩] 2 "boom" cgen (fun _ => none)
    (fun _ => some "delete failed") 3 [] (Except.error "boom")
    rfl (by decide) (by decide) rfl

end Persister
